import Mathlib

/-!
Verification of the round-robin / weighted-round-robin load balancer core
(`loadbalancer/balancer/weightedroundrobin.go` and the plain round-robin
selector in the same package).

Modelling conventions:
* Go `uint32` cursor arithmetic (`atomic.AddUint32`) is `Nat` arithmetic
  taken modulo `2^32`; the widening to `uint64` in the weighted selector is
  lossless, and `weight * round` (at most `65535 * (2^32 - 1)`) cannot
  overflow `uint64`, so plain `Nat` arithmetic is faithful there.
* `float64` fields (`alpha`, `ewmaLatency`, the intermediate score/weight
  vectors of `HealthCheck`) are modelled as exact rationals; the one place
  where the Go code leaves the realm of finite floats (division by a zero
  maximum score, producing `+Inf` and then a `NaN` conversion) is made
  explicit by an `Option` result.
* Network I/O (URL parsing, reverse proxies, the TCP aliveness probe) is
  external to the selection core: the probe outcome is already reflected in
  each instance's `alive` flag when the code under verification reads it.
-/

namespace RoundRobinLB

/-- Wraparound modulus of Go's `uint32` selection cursor (`2 ^ 32`). -/
def u32Mod : Nat := 4294967296

/-- Go constant `MaxWeight = math.MaxUint16 = 65535`. -/
def MaxWeight : Nat := 65535

/-- Record `RRInstanceImpl`: the per-backend state read by the plain
round-robin selector.  Of its fields only the `alive` flag participates in
selection; the URL and reverse proxy are opaque I/O handles. -/
structure RRInstanceImpl where
  alive : Bool
deriving DecidableEq, Repr

/-- Method `RRInstanceImpl.IsAlive`: returns the `alive` field. -/
def RRInstanceImpl.IsAlive (i : RRInstanceImpl) : Bool := i.alive

/-- Record `WRRInstanceImpl`: embeds the round-robin record and adds the
EWMA latency-estimator state (`alpha`, `ewmaLatency`), modelled over `ℚ`. -/
structure WRRInstanceImpl where
  alive : Bool
  alpha : ℚ
  ewmaLatency : ℚ
deriving DecidableEq, Repr

/-- Method `WRRInstanceImpl.IsAlive` (inherited from `RRInstanceImpl`). -/
def WRRInstanceImpl.IsAlive (i : WRRInstanceImpl) : Bool := i.alive

/-- Method `WRRInstanceImpl.SetEWMALatency`: folds an observed latency
(`int64` nanoseconds) into the estimate by
`ewmaLatency := alpha * newLatency + (1 - alpha) * ewmaLatency`. -/
def WRRInstanceImpl.SetEWMALatency (i : WRRInstanceImpl) (newLatency : Int) :
    WRRInstanceImpl :=
  { i with ewmaLatency := i.alpha * (newLatency : ℚ) + (1 - i.alpha) * i.ewmaLatency }

/-- The three error returns of the two `next` methods:
`errors.New "instance list is empty"`, `errors.New "weight list is empty"`,
and `errors.New "failed to find any alive instance"`. -/
inductive NextError where
  | emptyInstanceList
  | emptyWeightList
  | noAlive
deriving DecidableEq, Repr

deriving instance DecidableEq for Except

/-- Struct `RoundRobin`: the instance slice and the shared `uint32` cursor
(`current`, kept `< 2 ^ 32`). -/
structure RoundRobin where
  instances : List RRInstanceImpl
  current : Nat
deriving DecidableEq, Repr

/-- The retry loop of `RoundRobin.next`: at most `fuel` iterations, each
incrementing the wrapped cursor, taking `instanceIdx := next % length` and
returning it if that instance is alive.  Returns the result together with
the final cursor value. -/
def rrLoop (instances : List RRInstanceImpl) (length current : Nat) :
    Nat → Except NextError Nat × Nat
  | 0 => (.error .noAlive, current)
  | fuel + 1 =>
    let next := (current + 1) % u32Mod
    let instanceIdx := next % length
    if (instances.getD instanceIdx ⟨false⟩).IsAlive then (.ok instanceIdx, next)
    else rrLoop instances length next fuel

/-- Method `RoundRobin.next`: fails on an empty instance list, otherwise
runs the retry loop for at most `len instances` attempts. -/
def RoundRobin.next (rr : RoundRobin) : Except NextError Nat × RoundRobin :=
  let length := rr.instances.length
  if length = 0 then (.error .emptyInstanceList, rr)
  else
    let r := rrLoop rr.instances length rr.current length
    (r.1, { rr with current := r.2 })

/-- Iterates `RoundRobin.next` for a given number of consecutive calls,
collecting the per-call results and threading the balancer state. -/
def RoundRobin.run (rr : RoundRobin) : Nat → List (Except NextError Nat) × RoundRobin
  | 0 => ([], rr)
  | m + 1 =>
    let r := rr.next
    let rest := r.2.run m
    (r.1 :: rest.1, rest.2)

/-- Struct `WeightedRoundRobin`: instance slice, shared `uint32` cursor,
health-check interval configuration, and the `uint16` weight table. -/
structure WeightedRoundRobin where
  instances : List WRRInstanceImpl
  current : Nat
  healthCheckIntervalInSeconds : Int
  weights : List Nat
deriving DecidableEq, Repr

/-- The retry loop of `WeightedRoundRobin.next`: at most `fuel` iterations.
Each iteration increments the wrapped cursor into `next`, takes
`instanceIdx := next % length`, `weight := weights[instanceIdx]`,
`round := next / length`, `mod := weight * round % MaxWeight`, skips the
draw when `mod > weight`, skips it when the instance is dead, and
otherwise returns `instanceIdx`.  Returns the result with the final
cursor value. -/
def wrrLoop (instances : List WRRInstanceImpl) (weights : List Nat)
    (length current : Nat) : Nat → Except NextError Nat × Nat
  | 0 => (.error .noAlive, current)
  | fuel + 1 =>
    let next := (current + 1) % u32Mod
    let instanceIdx := next % length
    let weight := weights.getD instanceIdx 0
    let round := next / length
    let mod := weight * round % MaxWeight
    if weight < mod then wrrLoop instances weights length next fuel
    else if (instances.getD instanceIdx ⟨false, 0, 0⟩).IsAlive then (.ok instanceIdx, next)
    else wrrLoop instances weights length next fuel

/-- Method `WeightedRoundRobin.next`: fails on an empty weight list,
otherwise runs the weighted retry loop for at most `len weights`
attempts. -/
def WeightedRoundRobin.next (wrr : WeightedRoundRobin) :
    Except NextError Nat × WeightedRoundRobin :=
  let length := wrr.weights.length
  if length = 0 then (.error .emptyWeightList, wrr)
  else
    let r := wrrLoop wrr.instances wrr.weights length wrr.current length
    (r.1, { wrr with current := r.2 })

/-- Constructor `NewWeightedRoundRobin`, modelled on the count of valid
URLs (URL parsing and reverse-proxy construction are external I/O): an
empty URL list is rejected; otherwise every instance starts with
`alive := true`, `alpha := 0.7`, `ewmaLatency := 1`, the cursor at `0`,
and — the struct literal not mentioning it — a nil `weights` table. -/
def NewWeightedRoundRobin (n : Nat) (healthCheckIntervalInSeconds : Int) :
    Option WeightedRoundRobin :=
  if n = 0 then none
  else
    some { instances := List.replicate n ⟨true, 7/10, 1⟩
           current := 0
           healthCheckIntervalInSeconds := healthCheckIntervalInSeconds
           weights := [] }

/-- Score assigned to one instance by the `HealthCheck` sweep:
`1 / ewmaLatency` when alive, `0` when dead. -/
def instanceScore (i : WRRInstanceImpl) : ℚ :=
  if i.IsAlive then 1 / i.ewmaLatency else 0

/-- Go `math.Round`: round to the nearest integer, halves away from
zero. -/
def goRound (q : ℚ) : Int :=
  if 0 ≤ q then ⌊q + 1/2⌋ else -⌊-q + 1/2⌋

/-- Weight-recomputation phase of `WeightedRoundRobin.HealthCheck` (the
code after the aliveness flags have been set from the probe results): each
instance gets score `1/latency` if alive and `0` if dead, `maxScore` is
the running maximum of the scores starting from `0`, and each stored
`uint16` entry is `Round(MaxWeight / maxScore * score)`.  When
`maxScore = 0` the Go code has no special case: it computes
`scalingFactor = MaxWeight / 0 = +Inf` and converts `Round(+Inf * 0)`,
that is `Round(NaN)`, to `uint16` — a conversion whose value the Go
specification leaves implementation-defined — so the model returns `none`
on that path instead of inventing a value. -/
def recomputeWeights (instances : List WRRInstanceImpl) : Option (List Nat) :=
  let weights := instances.map instanceScore
  let maxScore := weights.foldl max 0
  if maxScore = 0 then none
  else some (weights.map fun w => (goRound ((MaxWeight : ℚ) / maxScore * w)).toNat)

/-- Three alive weighted instances as in the spec's concrete scenarios. -/
def threeAlive : List WRRInstanceImpl :=
  List.replicate 3 ⟨true, 7/10, 100⟩

/-- One alive weighted instance (the test fixtures' shape). -/
def aliveInst : WRRInstanceImpl := ⟨true, 7/10, 100⟩

/-- One dead weighted instance. -/
def deadInst : WRRInstanceImpl := ⟨false, 7/10, 100⟩

/-- Round-robin balancer with two dead instances, cursor `3`. -/
def rrTwoDead : RoundRobin := ⟨List.replicate 2 ⟨false⟩, 3⟩

/-- Weighted balancer with two dead instances, cursor `3`. -/
def wrrTwoDead : WeightedRoundRobin := ⟨List.replicate 2 deadInst, 3, 5, [7, 9]⟩

/-- Round-robin balancer with one alive instance and the cursor parked at
the `uint32` wraparound point. -/
def rrWrap : RoundRobin := ⟨[⟨true⟩], 4294967295⟩

/-- Weighted balancer with one alive instance and the cursor parked at the
`uint32` wraparound point. -/
def wrrWrap : WeightedRoundRobin := ⟨[aliveInst], 4294967295, 5, [65535]⟩

/-- Round-robin balancer with one alive and one dead instance, cursor `7`. -/
def rrMixed : RoundRobin := ⟨[⟨true⟩, ⟨false⟩], 7⟩

/-- Weighted balancer with the same aliveness pattern and cursor as
`rrMixed` and an all-`MaxWeight` weight table. -/
def wrrMixed : WeightedRoundRobin := ⟨[aliveInst, deadInst], 7, 5, [65535, 65535]⟩

/-- C1: the weighted selector on the two concrete scenarios.  With weights
`[65535, 20000, 65535]` and cursor `300`, the call consumes cursor `301`
(index `1`, round `100`, `mod = 20000 * 100 % 65535 = 33950 > 20000`,
rejected) and then cursor `302` (index `2`, weight `65535`, accepted),
returning index `2` with no error; with weights `[65535, 65535, 65535]`
and cursor `30` it consumes cursor `31` and returns index `1`. -/
theorem c1_concrete_weighted_scenarios :
    (WeightedRoundRobin.next ⟨threeAlive, 300, 5, [65535, 20000, 65535]⟩).1 = .ok 2 ∧
    (WeightedRoundRobin.next ⟨threeAlive, 300, 5, [65535, 20000, 65535]⟩).2.current = 302 ∧
    20000 * 100 % MaxWeight = 33950 ∧
    (WeightedRoundRobin.next ⟨threeAlive, 30, 5, [65535, 65535, 65535]⟩).1 = .ok 1 ∧
    (WeightedRoundRobin.next ⟨threeAlive, 30, 5, [65535, 65535, 65535]⟩).2.current = 31 := by
  refine ⟨by decide, by decide, by decide, by decide, by decide⟩

/-- Helper: a `getD` read from an all-dead instance list is dead (the
default is dead as well). -/
theorem getD_isAlive_false_wrr (l : List WRRInstanceImpl)
    (h : ∀ i ∈ l, i.IsAlive = false) (n : Nat) :
    (l.getD n ⟨false, 0, 0⟩).IsAlive = false := by
  rcases hx : l[n]? with - | x
  · simp [List.getD, hx, WRRInstanceImpl.IsAlive]
  · have hm : x ∈ l := List.getElem?_mem hx
    simp [List.getD, hx, h x hm]

/-- Helper: a `getD` read from an all-dead round-robin instance list is
dead. -/
theorem getD_isAlive_false_rr (l : List RRInstanceImpl)
    (h : ∀ i ∈ l, i.IsAlive = false) (n : Nat) :
    (l.getD n ⟨false⟩).IsAlive = false := by
  rcases hx : l[n]? with - | x
  · simp [List.getD, hx, RRInstanceImpl.IsAlive]
  · have hm : x ∈ l := List.getElem?_mem hx
    simp [List.getD, hx, h x hm]

/-- Helper: on an all-dead instance list, the round-robin retry loop burns
all its fuel, advancing the wrapped cursor once per attempt, and reports
`noAlive`. -/
theorem rrLoop_all_dead (inst : List RRInstanceImpl)
    (h : ∀ i ∈ inst, i.IsAlive = false) (L : Nat) :
    ∀ fuel c, c < u32Mod →
      rrLoop inst L c fuel = (.error .noAlive, (c + fuel) % u32Mod)
  | 0, c, hc => by simp [rrLoop, Nat.mod_eq_of_lt hc]
  | fuel + 1, c, hc => by
    have hdead := getD_isAlive_false_rr inst h (((c + 1) % u32Mod) % L)
    have hrec := rrLoop_all_dead inst h L fuel ((c + 1) % u32Mod)
      (Nat.mod_lt _ (by decide))
    have harith : c + 1 + fuel = c + (fuel + 1) := by omega
    simp only [rrLoop, hdead, Bool.false_eq_true, if_false, hrec,
      Nat.mod_add_mod, harith]

/-- Helper: on an all-dead instance list, the weighted retry loop burns
all its fuel, advancing the wrapped cursor once per attempt, and reports
`noAlive`. -/
theorem wrrLoop_all_dead (inst : List WRRInstanceImpl) (ws : List Nat)
    (h : ∀ i ∈ inst, i.IsAlive = false) (L : Nat) :
    ∀ fuel c, c < u32Mod →
      wrrLoop inst ws L c fuel = (.error .noAlive, (c + fuel) % u32Mod)
  | 0, c, hc => by simp [wrrLoop, Nat.mod_eq_of_lt hc]
  | fuel + 1, c, hc => by
    have hdead := getD_isAlive_false_wrr inst h (((c + 1) % u32Mod) % L)
    have hrec := wrrLoop_all_dead inst ws h L fuel ((c + 1) % u32Mod)
      (Nat.mod_lt _ (by decide))
    have harith : c + 1 + fuel = c + (fuel + 1) := by omega
    simp only [wrrLoop, hdead, Bool.false_eq_true, if_false, hrec,
      Nat.mod_add_mod, harith, ite_self]

/-- Helper: if the weighted retry loop returns an index, the instance it
denotes (under the dead default) is alive. -/
theorem wrrLoop_ok_alive (inst : List WRRInstanceImpl) (ws : List Nat) :
    ∀ fuel L c idx, (wrrLoop inst ws L c fuel).1 = .ok idx →
      (inst.getD idx ⟨false, 0, 0⟩).IsAlive = true
  | 0, L, c, idx => by simp [wrrLoop]
  | fuel + 1, L, c, idx => by
    simp only [wrrLoop]
    split
    · exact wrrLoop_ok_alive inst ws fuel L _ idx
    · split
      · rename_i halive
        intro hok
        obtain rfl : ((c + 1) % u32Mod) % L = idx := by
          simpa using hok
        exact halive
      · exact wrrLoop_ok_alive inst ws fuel L _ idx

/-- Helper: if the weighted retry loop returns an index, that index is in
range of the (nonzero) length it was given. -/
theorem wrrLoop_ok_lt (inst : List WRRInstanceImpl) (ws : List Nat)
    (L : Nat) (hL : 0 < L) :
    ∀ fuel c idx, (wrrLoop inst ws L c fuel).1 = .ok idx → idx < L
  | 0, c, idx => by simp [wrrLoop]
  | fuel + 1, c, idx => by
    simp only [wrrLoop]
    split
    · exact wrrLoop_ok_lt inst ws L hL fuel _ idx
    · split
      · intro hok
        obtain rfl : ((c + 1) % u32Mod) % L = idx := by simpa using hok
        exact Nat.mod_lt _ hL
      · exact wrrLoop_ok_lt inst ws L hL fuel _ idx

/-- Helper: if the round-robin retry loop returns an index, that index is
in range of the (nonzero) length it was given. -/
theorem rrLoop_ok_lt (inst : List RRInstanceImpl) (L : Nat) (hL : 0 < L) :
    ∀ fuel c idx, (rrLoop inst L c fuel).1 = .ok idx → idx < L
  | 0, c, idx => by simp [rrLoop]
  | fuel + 1, c, idx => by
    simp only [rrLoop]
    split
    · intro hok
      obtain rfl : ((c + 1) % u32Mod) % L = idx := by simpa using hok
      exact Nat.mod_lt _ hL
    · exact rrLoop_ok_lt inst L hL fuel _ idx

/-- C2 counterexample: with weight table `[5, 0, 5]`, all three instances
alive and the cursor at `0`, `next` lands on the zero-weight instance at
index `1` and — because `mod = 0 * 0 % 65535 = 0` is not greater than the
weight `0` — accepts and returns it.  This refutes the claim that a
zero-weight instance is never returned regardless of its aliveness. -/
theorem c2_counterexample_zero_weight_selected :
    (WeightedRoundRobin.next ⟨threeAlive, 0, 5, [5, 0, 5]⟩).1 = .ok 1 := by
  decide

/-- C2 amended: for a weight table `[W, 0, W]` the zero-weight instance is
never returned while it is dead; the modular acceptance test itself never
rejects a weight of `0` (its `mod` is always `0`, and the test only skips
when `mod` strictly exceeds the weight), so the protection comes from the
aliveness check alone and an alive zero-weight instance can be returned. -/
theorem c2_amended_zero_weight_dead_never_selected
    (i0 i2 d : WRRInstanceImpl) (hd : d.IsAlive = false)
    (W c hcs : Nat) :
    (WeightedRoundRobin.next ⟨[i0, d, i2], c, (hcs : Int), [W, 0, W]⟩).1 ≠ .ok 1 := by
  intro hok
  have halive := wrrLoop_ok_alive [i0, d, i2] [W, 0, W] 3 3 c 1 (by
    simpa [WeightedRoundRobin.next] using hok)
  rw [show ([i0, d, i2].getD 1 ⟨false, 0, 0⟩) = d from rfl, hd] at halive
  exact Bool.false_ne_true halive

/-- C4: in any balancer state — plain or weighted — whose `N ≥ 1`
instances are all dead, one `next` call makes exactly `N` attempts, each
advancing the wrapped cursor once (so the cursor ends at
`(start + N) % 2^32`), and returns the `failed to find any alive instance`
error; the retry loop never exceeds `N` iterations. -/
theorem c4_all_dead_exactly_n_attempts :
    (∀ (rr : RoundRobin) (N : Nat), rr.instances.length = N → 1 ≤ N →
      rr.current < u32Mod → (∀ i ∈ rr.instances, i.IsAlive = false) →
      RoundRobin.next rr =
        (.error .noAlive, { rr with current := (rr.current + N) % u32Mod })) ∧
    (∀ (wrr : WeightedRoundRobin) (N : Nat), wrr.weights.length = N →
      wrr.instances.length = N → 1 ≤ N →
      wrr.current < u32Mod → (∀ i ∈ wrr.instances, i.IsAlive = false) →
      WeightedRoundRobin.next wrr =
        (.error .noAlive, { wrr with current := (wrr.current + N) % u32Mod })) := by
  constructor
  · intro rr N hN h1 hc hdead
    subst hN
    have hne : rr.instances.length ≠ 0 := by omega
    have hloop := rrLoop_all_dead rr.instances hdead rr.instances.length
      rr.instances.length rr.current hc
    simp [RoundRobin.next, hne, hloop]
  · intro wrr N hw hi h1 hc hdead
    subst hw
    have hne : wrr.weights.length ≠ 0 := by omega
    have hloop := wrrLoop_all_dead wrr.instances wrr.weights hdead wrr.weights.length
      wrr.weights.length wrr.current hc
    simp [WeightedRoundRobin.next, hne, hloop]

/-- C4 witness: two dead instances, cursor `3`: both variants make exactly
two attempts, end with the cursor at `5`, and report `noAlive`. -/
theorem c4_witness :
    RoundRobin.next rrTwoDead =
      (.error .noAlive, { rrTwoDead with current := (rrTwoDead.current + 2) % u32Mod }) ∧
    WeightedRoundRobin.next wrrTwoDead =
      (.error .noAlive, { wrrTwoDead with current := (wrrTwoDead.current + 2) % u32Mod }) :=
  ⟨c4_all_dead_exactly_n_attempts.1 rrTwoDead 2 (by decide) (by decide) (by decide)
      (by decide),
   c4_all_dead_exactly_n_attempts.2 wrrTwoDead 2 (by decide) (by decide) (by decide)
      (by decide) (by decide)⟩

/-- C8: for any weighted instance whose smoothing factor is `0.7`,
recording an observed latency `L` moves the estimate from `old` to exactly
`0.7 * L + 0.3 * old` (in the exact-rational model of the `float64`
computation). -/
theorem c8_ewma_update (i : WRRInstanceImpl) (h : i.alpha = 7/10) (L : Int) :
    (i.SetEWMALatency L).ewmaLatency = 7/10 * (L : ℚ) + 3/10 * i.ewmaLatency := by
  simp only [WRRInstanceImpl.SetEWMALatency, h]
  ring

/-- C8 witness: the constructor-seeded instance (`alpha = 0.7`, estimate
`1`) observing latency `100` updates to exactly `70.3`. -/
theorem c8_witness :
    ((⟨true, 7/10, 1⟩ : WRRInstanceImpl).SetEWMALatency 100).ewmaLatency = 703/10 :=
  (c8_ewma_update ⟨true, 7/10, 1⟩ rfl 100).trans (by norm_num)

/-- C9: whenever `next` succeeds it returns an in-range index: for the
plain selector an index below the instance count, and for the weighted
selector — whose weight table is index-aligned with the instance slice —
an index below the (equal) table and instance count; this holds for every
cursor value, including values at and past the `uint32` wraparound
point. -/
theorem c9_next_ok_index_in_range :
    (∀ (rr : RoundRobin) (idx : Nat), (RoundRobin.next rr).1 = .ok idx →
      idx < rr.instances.length) ∧
    (∀ (wrr : WeightedRoundRobin) (idx : Nat),
      wrr.instances.length = wrr.weights.length →
      (WeightedRoundRobin.next wrr).1 = .ok idx → idx < wrr.instances.length) := by
  constructor
  · intro rr idx hok
    by_cases h0 : rr.instances.length = 0
    · simp [RoundRobin.next, h0] at hok
    · exact rrLoop_ok_lt rr.instances rr.instances.length (Nat.pos_of_ne_zero h0)
        rr.instances.length rr.current idx (by simpa [RoundRobin.next, h0] using hok)
  · intro wrr idx halign hok
    by_cases h0 : wrr.weights.length = 0
    · simp [WeightedRoundRobin.next, h0] at hok
    · rw [halign]
      exact wrrLoop_ok_lt wrr.instances wrr.weights wrr.weights.length
        (Nat.pos_of_ne_zero h0) wrr.weights.length wrr.current idx
        (by simpa [WeightedRoundRobin.next, h0] using hok)

/-- C9 witness: with the cursor at `2^32 - 1` (the wraparound point) and a
single alive instance, both selectors succeed with index `0`, which is in
range. -/
theorem c9_witness :
    (RoundRobin.next rrWrap).1 = .ok 0 ∧ 0 < rrWrap.instances.length ∧
    (WeightedRoundRobin.next wrrWrap).1 = .ok 0 ∧ 0 < wrrWrap.instances.length :=
  ⟨by decide, c9_next_ok_index_in_range.1 rrWrap 0 (by decide),
   by decide, c9_next_ok_index_in_range.2 wrrWrap 0 (by decide) (by decide)⟩

/-- C10: constructing a weighted balancer from `n ≥ 1` valid URLs
succeeds, marks every instance alive, and leaves the weight table empty,
so a `next` call made before any health-check sweep fails with the
`weight list is empty` error and leaves the state unchanged. -/
theorem c10_constructor_empty_weights (n : Nat) (hcs : Int) (h : 1 ≤ n) :
    ∃ wrr : WeightedRoundRobin, NewWeightedRoundRobin n hcs = some wrr ∧
      wrr.weights = [] ∧ wrr.instances.length = n ∧
      (∀ i ∈ wrr.instances, i.IsAlive = true) ∧
      wrr.next = (.error .emptyWeightList, wrr) := by
  refine ⟨⟨List.replicate n ⟨true, 7/10, 1⟩, 0, hcs, []⟩, ?_, rfl, ?_, ?_, ?_⟩
  · simp [NewWeightedRoundRobin, (show n ≠ 0 by omega)]
  · simp
  · intro i hi
    rw [List.eq_of_mem_replicate hi]
    rfl
  · rfl

/-- C10 witness: three URLs, interval `5`. -/
theorem c10_witness :
    ∃ wrr : WeightedRoundRobin, NewWeightedRoundRobin 3 5 = some wrr ∧
      wrr.weights = [] ∧ wrr.instances.length = 3 ∧
      (∀ i ∈ wrr.instances, i.IsAlive = true) ∧
      wrr.next = (.error .emptyWeightList, wrr) :=
  c10_constructor_empty_weights 3 5 (by decide)

/-- C2 amended witness: with the middle (zero-weight) instance dead, the
other two alive, and the cursor at `0`, `next` does not return index
`1`. -/
theorem c2_amended_witness :
    (WeightedRoundRobin.next ⟨[aliveInst, deadInst, aliveInst], 0, 5, [5, 0, 5]⟩).1 ≠
      .ok 1 :=
  c2_amended_zero_weight_dead_never_selected aliveInst aliveInst deadInst rfl 5 0 5

/-- Helper: pointwise aliveness agreement between a round-robin and a
weighted instance list, derived from equality of the mapped `IsAlive`
vectors (the defaults on both sides are dead). -/
theorem getD_isAlive_of_map_eq (rInst : List RRInstanceImpl)
    (wInst : List WRRInstanceImpl)
    (h : rInst.map RRInstanceImpl.IsAlive = wInst.map WRRInstanceImpl.IsAlive)
    (n : Nat) :
    (rInst.getD n ⟨false⟩).IsAlive = (wInst.getD n ⟨false, 0, 0⟩).IsAlive := by
  have h2 : (rInst[n]?).map RRInstanceImpl.IsAlive =
      (wInst[n]?).map WRRInstanceImpl.IsAlive := by
    rw [← List.getElem?_map, ← List.getElem?_map, h]
  rw [List.getD_eq_getElem?_getD, List.getD_eq_getElem?_getD]
  rcases hr : rInst[n]? with - | x <;> rcases hw : wInst[n]? with - | y <;>
      rw [hr, hw] at h2 <;> simp at h2 <;> first | rfl | simpa using h2

/-- Helper: with an all-`MaxWeight` weight table the weighted retry loop
coincides, step for step, with the plain round-robin retry loop over any
instance list with the same aliveness pattern: the acceptance test
computes `mod = MaxWeight * round % MaxWeight = 0`, which never exceeds
the weight, so only the aliveness check remains. -/
theorem wrrLoop_maxweight_eq_rrLoop (wInst : List WRRInstanceImpl)
    (rInst : List RRInstanceImpl) (L : Nat) (hL : 0 < L)
    (halive : rInst.map RRInstanceImpl.IsAlive = wInst.map WRRInstanceImpl.IsAlive) :
    ∀ fuel c,
      wrrLoop wInst (List.replicate L MaxWeight) L c fuel = rrLoop rInst L c fuel
  | 0, c => by simp [wrrLoop, rrLoop]
  | fuel + 1, c => by
    have hidx : ((c + 1) % u32Mod) % L < L := Nat.mod_lt _ hL
    have hwt : (List.replicate L MaxWeight).getD (((c + 1) % u32Mod) % L) 0 =
        MaxWeight := by
      rw [List.getD_eq_getElem?_getD, List.getElem?_replicate, if_pos hidx]
      rfl
    have ha := getD_isAlive_of_map_eq rInst wInst halive (((c + 1) % u32Mod) % L)
    have hrec := wrrLoop_maxweight_eq_rrLoop wInst rInst L hL halive fuel
      ((c + 1) % u32Mod)
    simp only [wrrLoop, rrLoop, hwt, Nat.mul_mod_right, Nat.not_lt_zero, if_false,
      ha, hrec]

/-- C3: when every entry of the weight table is `MaxWeight`, the
acceptance test always passes (its `mod` is `0`), and the weighted
selector behaves exactly like the plain round-robin selector: from the
same starting cursor, instance count, and aliveness flags, one call
returns the same index or the same failure and leaves the cursor at the
same value. -/
theorem c3_maxweight_equiv_roundrobin (rr : RoundRobin)
    (wrr : WeightedRoundRobin)
    (hw : wrr.weights = List.replicate rr.instances.length MaxWeight)
    (halive : rr.instances.map RRInstanceImpl.IsAlive =
      wrr.instances.map WRRInstanceImpl.IsAlive)
    (hcur : wrr.current = rr.current)
    (hN : 1 ≤ rr.instances.length) :
    (∀ round : Nat, MaxWeight * round % MaxWeight ≤ MaxWeight) ∧
    (WeightedRoundRobin.next wrr).1 = (RoundRobin.next rr).1 ∧
    (WeightedRoundRobin.next wrr).2.current = (RoundRobin.next rr).2.current := by
  have hL : 0 < rr.instances.length := hN
  have hlen : wrr.weights.length = rr.instances.length := by
    rw [hw, List.length_replicate]
  have hne : rr.instances.length ≠ 0 := by omega
  have hloop := wrrLoop_maxweight_eq_rrLoop wrr.instances rr.instances
    rr.instances.length hL halive rr.instances.length rr.current
  refine ⟨fun round => by simp [Nat.mul_mod_right], ?_, ?_⟩ <;>
    simp [WeightedRoundRobin.next, RoundRobin.next, hw, hlen, hcur, hne,
      List.length_replicate, hloop]

/-- C3 witness: one alive and one dead instance, cursor `7`, table
`[65535, 65535]`: both selectors agree on the result and the final
cursor, and a sample acceptance test passes. -/
theorem c3_witness :
    MaxWeight * 12345 % MaxWeight ≤ MaxWeight ∧
    (WeightedRoundRobin.next wrrMixed).1 = (RoundRobin.next rrMixed).1 ∧
    (WeightedRoundRobin.next wrrMixed).2.current = (RoundRobin.next rrMixed).2.current :=
  have h := c3_maxweight_equiv_roundrobin rrMixed wrrMixed (by decide) (by decide)
    (by decide) (by decide)
  ⟨h.1 12345, h.2.1, h.2.2⟩

/-- Helper: with at least one unit of fuel, the round-robin loop returns
immediately when the instance the incremented cursor lands on is alive. -/
theorem rrLoop_succ_alive (inst : List RRInstanceImpl) (L c fuel : Nat)
    (ha : (inst.getD (((c + 1) % u32Mod) % L) ⟨false⟩).IsAlive = true) :
    rrLoop inst L c (fuel + 1) = (.ok (((c + 1) % u32Mod) % L), (c + 1) % u32Mod) := by
  simp only [rrLoop, ha]
  simp

/-- Helper: an in-bounds `getD` read from an all-alive instance list is
alive. -/
theorem getD_isAlive_true_rr (l : List RRInstanceImpl)
    (h : ∀ i ∈ l, i.IsAlive = true) (n : Nat) (hn : n < l.length) :
    (l.getD n ⟨false⟩).IsAlive = true := by
  rw [List.getD_eq_getElem?_getD, List.getElem?_eq_getElem hn]
  exact h _ (List.getElem_mem hn)

/-- Helper: on a nonempty all-alive instance list a `next` call returns
the index the incremented (wrapped) cursor lands on. -/
theorem next_all_alive (inst : List RRInstanceImpl) (hL : 0 < inst.length)
    (halive : ∀ i ∈ inst, i.IsAlive = true) (c : Nat) :
    RoundRobin.next ⟨inst, c⟩ =
      (.ok (((c + 1) % u32Mod) % inst.length), ⟨inst, (c + 1) % u32Mod⟩) := by
  have hfuel : inst.length = (inst.length - 1) + 1 := by omega
  have hne : inst ≠ [] := List.ne_nil_of_length_pos hL
  have ha := getD_isAlive_true_rr inst halive (((c + 1) % u32Mod) % inst.length)
    (Nat.mod_lt _ hL)
  have hloop : rrLoop inst inst.length c inst.length =
      (.ok (((c + 1) % u32Mod) % inst.length), (c + 1) % u32Mod) := by
    nth_rewrite 2 [hfuel]
    exact rrLoop_succ_alive inst inst.length c (inst.length - 1) ha
  simp [RoundRobin.next, hne, hloop]

/-- Helper: on a nonempty all-alive instance list, a no-wraparound run of
`m` consecutive `next` calls returns the indices
`(c + 1) % N, (c + 2) % N, …, (c + m) % N` in order. -/
theorem run_all_alive (inst : List RRInstanceImpl) (hL : 0 < inst.length)
    (halive : ∀ i ∈ inst, i.IsAlive = true) :
    ∀ (m c : Nat), c + m < u32Mod →
      (RoundRobin.run ⟨inst, c⟩ m).1 =
        (List.range m).map (fun i => Except.ok ((c + 1 + i) % inst.length))
  | 0, c, _ => by simp [RoundRobin.run]
  | m + 1, c, h => by
    have hc1 : (c + 1) % u32Mod = c + 1 := Nat.mod_eq_of_lt (by omega)
    have hstep := next_all_alive inst hL halive c
    rw [hc1] at hstep
    have hrec := run_all_alive inst hL halive m (c + 1) (by omega)
    simp only [RoundRobin.run, hstep, hrec, List.range_succ_eq_map, List.map_cons,
      List.map_map, List.cons.injEq]
    refine ⟨by norm_num, ?_⟩
    apply List.map_congr_left
    intro i _
    have harith : c + 1 + 1 + i = c + 1 + Nat.succ i := by omega
    simp [Function.comp, harith]

/-- Helper: for `0 < N`, the values `(d + j) % N` for `j` ranging over one
block of `N` consecutive integers are a permutation of `0, …, N - 1`. -/
theorem range_map_mod_perm (N : Nat) (hN : 0 < N) (d : Nat) :
    ((List.range N).map (fun j => (d + j) % N)).Perm (List.range N) := by
  apply List.Subperm.perm_of_length_le
  · apply List.subperm_of_subset
    · refine List.Nodup.map_on ?_ (List.nodup_range N)
      intro i hi j hj hij
      have hmod : i ≡ j [MOD N] :=
        Nat.ModEq.add_left_cancel' d (hij : d + i ≡ d + j [MOD N])
      rw [List.mem_range] at hi hj
      calc i = i % N := (Nat.mod_eq_of_lt hi).symm
        _ = j % N := hmod
        _ = j := Nat.mod_eq_of_lt hj
    · intro x hx
      rw [List.mem_map] at hx
      obtain ⟨j, -, rfl⟩ := hx
      exact List.mem_range.mpr (Nat.mod_lt _ hN)
  · simp

/-- Helper: each residue `r < N` occurs exactly once among
`(d + j) % N` for `j` in one block of `N` consecutive integers. -/
theorem count_mod_one_block (N : Nat) (hN : 0 < N) (r : Nat) (hr : r < N)
    (d : Nat) : ((List.range N).map (fun j => (d + j) % N)).count r = 1 := by
  rw [(range_map_mod_perm N hN d).count_eq]
  exact List.count_eq_one_of_mem (List.nodup_range N) (List.mem_range.mpr hr)

/-- Helper: each residue `r < N` occurs exactly `k` times among
`(d + j) % N` for `j` in a block of `k * N` consecutive integers. -/
theorem count_mod_range_mul (N : Nat) (hN : 0 < N) (r : Nat) (hr : r < N) :
    ∀ k d : Nat, ((List.range (k * N)).map (fun j => (d + j) % N)).count r = k
  | 0, d => by simp
  | k + 1, d => by
    have hsplit : (k + 1) * N = k * N + N := by ring
    rw [hsplit, List.range_add, List.map_append, List.count_append, List.map_map]
    have heq : ((fun j => (d + j) % N) ∘ (fun b => k * N + b)) =
        fun j => (d + j) % N := by
      funext j
      show (d + (k * N + j)) % N = (d + j) % N
      rw [show d + (k * N + j) = d + j + k * N by ring, Nat.add_mul_mod_self_right]
    rw [heq, count_mod_range_mul N hN r hr k d, count_mod_one_block N hN r hr d]

/-- Helper: `Except.ok` is injective. -/
theorem except_ok_injective :
    Function.Injective (Except.ok : Nat → Except NextError Nat) := by
  intro a b h
  injection h

/-- C5 counterexample: three alive instances and the starting cursor
`2^32 - 2`: the next `1 * 3` consecutive calls return indices
`0, 0, 1` — the `uint32` cursor wraps from `2^32 - 1` to `0` mid-run and,
since `3` does not divide `2^32`, index `2` is returned `0` times rather
than exactly once. -/
theorem c5_counterexample_wraparound :
    ((RoundRobin.run ⟨List.replicate 3 ⟨true⟩, 4294967294⟩ (1 * 3)).1 =
      [.ok 0, .ok 0, .ok 1]) ∧
    ((RoundRobin.run ⟨List.replicate 3 ⟨true⟩, 4294967294⟩ (1 * 3)).1).count (.ok 2) ≠
      1 := by
  refine ⟨by decide, by decide⟩

/-- C5 amended: for every round-robin state with `N ≥ 1` instances all
alive, every `k ≥ 1`, and every starting cursor from which the `k * N`
consecutive calls do not cross the `uint32` wraparound point
(`cursor + k * N < 2^32`), the run returns each index `r < N` exactly `k`
times; at a wraparound the counts can be uneven unless `N` divides
`2^32`. -/
theorem c5_amended_round_robin_fair_counts (rr : RoundRobin) (N k : Nat)
    (hN : rr.instances.length = N) (h1 : 1 ≤ N) (hk : 1 ≤ k)
    (halive : ∀ i ∈ rr.instances, i.IsAlive = true)
    (hnowrap : rr.current + k * N < u32Mod) (r : Nat) (hr : r < N) :
    ((rr.run (k * N)).1).count (.ok r) = k := by
  subst hN
  obtain ⟨inst, c⟩ := rr
  dsimp only at halive hnowrap hr ⊢
  have hrun := run_all_alive inst (by omega) halive (k * inst.length) c hnowrap
  rw [hrun]
  rw [show (fun i => Except.ok ((c + 1 + i) % inst.length)) =
    (Except.ok : Nat → Except NextError Nat) ∘ (fun i => (c + 1 + i) % inst.length)
    from rfl]
  rw [← List.map_map, List.count_map_of_injective _ _ except_ok_injective]
  exact count_mod_range_mul inst.length (by omega) r hr k (c + 1)

/-- C5 amended witness: three alive instances, cursor `30`, `k = 2`: six
consecutive calls return index `1` exactly twice. -/
theorem c5_amended_witness :
    ((RoundRobin.run ⟨List.replicate 3 ⟨true⟩, 30⟩ (2 * 3)).1).count (.ok 1) = 2 :=
  c5_amended_round_robin_fair_counts ⟨List.replicate 3 ⟨true⟩, 30⟩ 3 2 (by decide)
    (by decide) (by decide) (by decide) (by decide) 1 (by decide)

/-- Helper: the seed of a `foldl max` is a lower bound of the result. -/
theorem le_foldl_max (l : List ℚ) : ∀ a : ℚ, a ≤ l.foldl max a := by
  induction l with
  | nil => intro a; exact le_refl a
  | cons b t ih =>
    intro a
    exact le_trans (le_max_left a b) (ih (max a b))

/-- Helper: every member of the list is a lower bound of its
`foldl max`. -/
theorem mem_le_foldl_max (l : List ℚ) (x : ℚ) (hx : x ∈ l) :
    ∀ a : ℚ, x ≤ l.foldl max a := by
  induction l with
  | nil => cases hx
  | cons b t ih =>
    intro a
    rcases List.mem_cons.mp hx with rfl | hmem
    · exact le_trans (le_max_right a x) (le_foldl_max t (max a x))
    · exact ih hmem (max a b)

/-- Helper: `foldl max` stays below any common upper bound of the seed and
the members. -/
theorem foldl_max_le (l : List ℚ) : ∀ a b : ℚ, a ≤ b → (∀ x ∈ l, x ≤ b) →
    l.foldl max a ≤ b := by
  induction l with
  | nil => intro a b ha _; exact ha
  | cons c t ih =>
    intro a b ha h
    exact ih (max a c) b (max_le ha (h c (by simp))) fun x hx => h x (by simp [hx])

/-- Helper: an in-bounds `getD` read of a mapped list is the function
applied to the `getD` read of the original list, whatever the two
defaults. -/
theorem getD_map_of_lt {α β : Type} (l : List α) (f : α → β) (m : Nat)
    (hm : m < l.length) (b : β) (d : α) :
    (l.map f).getD m b = f (l.getD m d) := by
  rw [List.getD_eq_getElem?_getD, List.getD_eq_getElem?_getD, List.getElem?_map,
    List.getElem?_eq_getElem hm]
  simp

/-- Helper: an in-bounds `getD` read is a member of the list. -/
theorem getD_mem_of_lt {α : Type} (l : List α) (m : Nat) (hm : m < l.length)
    (d : α) : l.getD m d ∈ l := by
  rw [List.getD_eq_getElem?_getD, List.getElem?_eq_getElem hm]
  exact List.getElem_mem hm

/-- Helper: Go's `math.Round` of an exact natural number is that
number. -/
theorem goRound_natCast (n : Nat) : goRound (n : ℚ) = (n : Int) := by
  rw [goRound, if_pos (by positivity)]
  rw [Int.floor_eq_iff]
  push_cast
  constructor <;> [linarith; linarith]

/-- C6: when every instance is dead at recomputation time, the weight
recomputation never reaches defined arithmetic: all scores are `0`, so
`maxScore = 0` and the Go code divides `MaxWeight` by zero (`+Inf`) and
converts `Round(+Inf * 0) = Round(NaN)` to `uint16`, a value the Go
specification leaves implementation-defined — there is no branch that
clears the table to zeros, contrary to the spec's explicit
`maxScore == 0` clause. -/
theorem c6_all_dead_recompute_undefined (instances : List WRRInstanceImpl)
    (h : ∀ i ∈ instances, i.IsAlive = false) :
    recomputeWeights instances = none := by
  have hz : ∀ x ∈ instances.map instanceScore, x = (0 : ℚ) := by
    intro x hx
    rw [List.mem_map] at hx
    obtain ⟨i, hi, rfl⟩ := hx
    simp [instanceScore, h i hi]
  have hmx : (instances.map instanceScore).foldl max 0 = 0 :=
    le_antisymm
      (foldl_max_le _ 0 0 le_rfl fun x hx => le_of_eq (hz x hx))
      (le_foldl_max _ 0)
  simp only [recomputeWeights]
  rw [if_pos hmx]

/-- C6 witness: a sweep over two dead instances hits the undefined
conversion path (no defined all-zero table is produced). -/
theorem c6_witness : recomputeWeights (List.replicate 2 deadInst) = none :=
  c6_all_dead_recompute_undefined (List.replicate 2 deadInst) (by decide)

/-- C7: after a sweep with at least one alive instance (all latency
estimates positive), the recomputation produces a table of the same
length in which every alive instance's entry is exactly
`Round((1 / latencyEstimate) / maxScore * MaxWeight)` (the code's
`Round(MaxWeight / maxScore * score)` commuted over `ℚ`), and every alive
instance of minimal latency among the alive instances gets exactly
`MaxWeight = 65535`. -/
theorem c7_health_check_weight_formula (instances : List WRRInstanceImpl)
    (hpos : ∀ i ∈ instances, 0 < i.ewmaLatency)
    (j : Nat) (hjl : j < instances.length)
    (hja : (instances.getD j ⟨false, 0, 0⟩).IsAlive = true) :
    ∃ table, recomputeWeights instances = some table ∧
      table.length = instances.length ∧
      (∀ m, m < instances.length →
        (instances.getD m ⟨false, 0, 0⟩).IsAlive = true →
        table.getD m 0 =
          (goRound ((1 / (instances.getD m ⟨false, 0, 0⟩).ewmaLatency) /
            ((instances.map instanceScore).foldl max 0) * (MaxWeight : ℚ))).toNat) ∧
      (∀ m, m < instances.length →
        (instances.getD m ⟨false, 0, 0⟩).IsAlive = true →
        (∀ p, p < instances.length →
          (instances.getD p ⟨false, 0, 0⟩).IsAlive = true →
          (instances.getD m ⟨false, 0, 0⟩).ewmaLatency ≤
            (instances.getD p ⟨false, 0, 0⟩).ewmaLatency) →
        table.getD m 0 = MaxWeight) := by
  have hmemj := getD_mem_of_lt instances j hjl ⟨false, 0, 0⟩
  have hscorej : instanceScore (instances.getD j ⟨false, 0, 0⟩) =
      1 / (instances.getD j ⟨false, 0, 0⟩).ewmaLatency := by
    rw [instanceScore, if_pos hja]
  have hsjpos : 0 < instanceScore (instances.getD j ⟨false, 0, 0⟩) := by
    rw [hscorej]
    exact one_div_pos.mpr (hpos _ hmemj)
  have hsjmem : instanceScore (instances.getD j ⟨false, 0, 0⟩) ∈
      instances.map instanceScore := List.mem_map_of_mem _ hmemj
  have hmxpos : 0 < (instances.map instanceScore).foldl max 0 :=
    lt_of_lt_of_le hsjpos (mem_le_foldl_max _ _ hsjmem 0)
  have hmxne : ((instances.map instanceScore).foldl max 0) ≠ 0 := ne_of_gt hmxpos
  refine ⟨(instances.map instanceScore).map
      (fun w => (goRound ((MaxWeight : ℚ) /
        ((instances.map instanceScore).foldl max 0) * w)).toNat),
    ?_, by simp, ?_, ?_⟩
  · simp only [recomputeWeights]
    rw [if_neg hmxne]
  · intro m hm ha
    have hentry := getD_map_of_lt (instances.map instanceScore)
      (fun w => (goRound ((MaxWeight : ℚ) /
        ((instances.map instanceScore).foldl max 0) * w)).toNat)
      m (by simpa using hm) 0 0
    have hws := getD_map_of_lt instances instanceScore m hm (0 : ℚ) ⟨false, 0, 0⟩
    rw [hentry, hws]
    have hscorem : instanceScore (instances.getD m ⟨false, 0, 0⟩) =
        1 / (instances.getD m ⟨false, 0, 0⟩).ewmaLatency := by
      rw [instanceScore, if_pos ha]
    rw [hscorem]
    congr 2
    ring
  · intro m hm ha hmin
    have hmemm := getD_mem_of_lt instances m hm ⟨false, 0, 0⟩
    have hlatm := hpos _ hmemm
    have hscorem : instanceScore (instances.getD m ⟨false, 0, 0⟩) =
        1 / (instances.getD m ⟨false, 0, 0⟩).ewmaLatency := by
      rw [instanceScore, if_pos ha]
    have hsmmem : instanceScore (instances.getD m ⟨false, 0, 0⟩) ∈
        instances.map instanceScore := List.mem_map_of_mem _ hmemm
    have hub : ∀ x ∈ instances.map instanceScore,
        x ≤ instanceScore (instances.getD m ⟨false, 0, 0⟩) := by
      intro x hx
      rw [List.mem_map] at hx
      obtain ⟨i, hi, rfl⟩ := hx
      obtain ⟨p, hp, rfl⟩ := List.getElem_of_mem hi
      have hgetp : instances.getD p ⟨false, 0, 0⟩ = instances[p] := by
        rw [List.getD_eq_getElem?_getD, List.getElem?_eq_getElem hp]
        rfl
      by_cases hpa : (instances[p]).IsAlive = true
      · have hle := hmin p hp (by rw [hgetp]; exact hpa)
        rw [hgetp] at hle
        rw [hscorem]
        have hip := hpos _ (List.getElem_mem hp)
        simp only [instanceScore, hpa, if_true]
        exact one_div_le_one_div_of_le hlatm hle
      · rw [hscorem]
        simp only [instanceScore, hpa, if_false]
        positivity
    have hmxeq : (instances.map instanceScore).foldl max 0 =
        instanceScore (instances.getD m ⟨false, 0, 0⟩) :=
      le_antisymm
        (foldl_max_le _ 0 _ (by rw [hscorem]; positivity) hub)
        (mem_le_foldl_max _ _ hsmmem 0)
    have hentry := getD_map_of_lt (instances.map instanceScore)
      (fun w => (goRound ((MaxWeight : ℚ) /
        ((instances.map instanceScore).foldl max 0) * w)).toNat)
      m (by simpa using hm) 0 0
    have hws := getD_map_of_lt instances instanceScore m hm (0 : ℚ) ⟨false, 0, 0⟩
    rw [hentry, hws, hmxeq, div_mul_cancel₀ _ (by rw [hscorem]; positivity),
      goRound_natCast, Int.toNat_natCast]

/-- Concrete sample values of the weight recomputation: alive latencies
`[100, 50]` give the table `[32768, 65535]` (the faster instance exactly
`MaxWeight`, the slower one `Round(32767.5) = 32768 ≈ MaxWeight / 2`),
and three equal alive latencies `[100, 100, 100]` give three equal
entries `[65535, 65535, 65535]`. -/
theorem recomputeWeights_sample_values :
    recomputeWeights [⟨true, 7/10, 100⟩, ⟨true, 7/10, 50⟩] =
      some [32768, 65535] ∧
    recomputeWeights threeAlive = some [65535, 65535, 65535] := by
  constructor
  · norm_num [recomputeWeights, instanceScore, WRRInstanceImpl.IsAlive, goRound,
      max_def, MaxWeight]
    exact ⟨rfl, rfl⟩
  · norm_num [recomputeWeights, threeAlive, List.replicate, instanceScore,
      WRRInstanceImpl.IsAlive, goRound, max_def, MaxWeight]
    rfl

/-- C7 witness: two alive instances with latency estimates `100` and
`50`: the hypotheses hold at index `1` (alive, minimal latency), so the
recomputation succeeds and gives the lower-latency instance exactly
`MaxWeight`. -/
theorem c7_witness :
    ∃ table,
      recomputeWeights [⟨true, 7/10, 100⟩, ⟨true, 7/10, 50⟩] = some table ∧
      table.length = 2 ∧
      (∀ m, m < ([⟨true, 7/10, 100⟩, ⟨true, 7/10, 50⟩] :
          List WRRInstanceImpl).length →
        (([⟨true, 7/10, 100⟩, ⟨true, 7/10, 50⟩] :
          List WRRInstanceImpl).getD m ⟨false, 0, 0⟩).IsAlive = true →
        table.getD m 0 =
          (goRound ((1 / (([⟨true, 7/10, 100⟩, ⟨true, 7/10, 50⟩] :
              List WRRInstanceImpl).getD m ⟨false, 0, 0⟩).ewmaLatency) /
            ((([⟨true, 7/10, 100⟩, ⟨true, 7/10, 50⟩] :
              List WRRInstanceImpl).map instanceScore).foldl max 0) *
            (MaxWeight : ℚ))).toNat) ∧
      (∀ m, m < ([⟨true, 7/10, 100⟩, ⟨true, 7/10, 50⟩] :
          List WRRInstanceImpl).length →
        (([⟨true, 7/10, 100⟩, ⟨true, 7/10, 50⟩] :
          List WRRInstanceImpl).getD m ⟨false, 0, 0⟩).IsAlive = true →
        (∀ p, p < ([⟨true, 7/10, 100⟩, ⟨true, 7/10, 50⟩] :
            List WRRInstanceImpl).length →
          (([⟨true, 7/10, 100⟩, ⟨true, 7/10, 50⟩] :
            List WRRInstanceImpl).getD p ⟨false, 0, 0⟩).IsAlive = true →
          (([⟨true, 7/10, 100⟩, ⟨true, 7/10, 50⟩] :
            List WRRInstanceImpl).getD m ⟨false, 0, 0⟩).ewmaLatency ≤
            (([⟨true, 7/10, 100⟩, ⟨true, 7/10, 50⟩] :
              List WRRInstanceImpl).getD p ⟨false, 0, 0⟩).ewmaLatency) →
        table.getD m 0 = MaxWeight) :=
  c7_health_check_weight_formula [⟨true, 7/10, 100⟩, ⟨true, 7/10, 50⟩]
    (by
      intro i hi
      simp only [List.mem_cons, List.not_mem_nil, or_false] at hi
      rcases hi with rfl | rfl <;> norm_num)
    1 (by norm_num) rfl

end RoundRobinLB
